import Mathlib

/-!
Verification of the mouth-sync engine and viseme selector of the ai-avatar
repository.

The mouth-sync engine (hook useAudioMouthSync) owns an audio analysis graph
per audio element, and on every animation frame publishes a loudness value
(onMouth / setMouth) and a normalized spectral centroid (onViseme / setViseme).
The viseme selector (the useFrame body of the avatar component in App.tsx)
smooths the amplitude and picks a discrete mouth-shape index from a palette.

Numbers are modelled as rationals; buffers as index functions together with an
explicit length (the source iterates arrays by index); the per-tick side
effects of the engine as a trace of events.
-/

namespace AvatarSync

/-- Model of THREE.MathUtils.clamp (and Math.max / Math.min composition):
clamp value lo hi = max(lo, min(hi, value)). -/
def clamp (value lo hi : ℚ) : ℚ := max lo (min hi value)

/-- Model of THREE.MathUtils.lerp: lerp x y t = (1 - t) * x + t * y. -/
def lerp (x y t : ℚ) : ℚ := (1 - t) * x + t * y

/-! ## Mouth-sync engine (useAudioMouthSync in the hook file) -/

/-- Loudness computed by tick over the byte time-domain buffer: for each
sample v = (timeData[i] - 128) / 128, sum |v|, average over the window, then
amp = min(1, avg * 8). -/
def tickAmp (len : ℕ) (timeData : ℕ → ℕ) : ℚ :=
  let sum : ℚ := ∑ i in Finset.range len, |((timeData i : ℚ) - 128) / 128|
  let avg := sum / (len : ℚ)
  min 1 (avg * 8)

/-- Numerator accumulated by computeSpectralCentroid: num += max(0, freqData[i]) * i. -/
def centroidNum (len : ℕ) (freqData : ℕ → ℚ) : ℚ :=
  ∑ i in Finset.range len, max 0 (freqData i) * (i : ℚ)

/-- Denominator accumulated by computeSpectralCentroid: den += max(0, freqData[i]). -/
def centroidDen (len : ℕ) (freqData : ℕ → ℚ) : ℚ :=
  ∑ i in Finset.range len, max 0 (freqData i)

/-- Model of computeSpectralCentroid: if den is zero return 0, else
(num / den) / max(1, len - 1). -/
def computeSpectralCentroid (len : ℕ) (freqData : ℕ → ℚ) : ℚ :=
  if centroidDen len freqData = 0 then 0
  else (centroidNum len freqData / centroidDen len freqData) / max 1 ((len : ℚ) - 1)

/-- Observable actions of the engine on one animation frame or event handler. -/
inductive EngineEvent where
  | emitMouth (v : ℚ)
  | emitViseme (v : ℚ)
  | cancelFrame
  | scheduleFrame
deriving DecidableEq

/-- Trace of one tick: setMouth(amp) first; then, when a setViseme callback was
supplied, the centroid computation runs inside try/catch and its result is
published only on success; finally requestAnimationFrame(tick) reschedules the
loop. The centroid computation's outcome is passed in as an Except value. -/
def tick (len : ℕ) (timeData : ℕ → ℕ) (centroidResult : Except Unit ℚ)
    (hasViseme : Bool) : List EngineEvent :=
  EngineEvent.emitMouth (tickAmp len timeData) ::
    ((if hasViseme then
        match centroidResult with
        | Except.ok c => [EngineEvent.emitViseme c]
        | Except.error _ => []
      else []) ++ [EngineEvent.scheduleFrame])

/-- Trace of the onPause handler (registered for both pause and ended):
cancelAnimationFrame(raf); setMouth(0); if setViseme then setViseme(0). -/
def onPause (hasViseme : Bool) : List EngineEvent :=
  EngineEvent.cancelFrame :: EngineEvent.emitMouth 0 ::
    (if hasViseme then [EngineEvent.emitViseme 0] else [])

/-! ## AudioSession cache (the module-level graph WeakMap)

Audio elements are modelled by natural-number identities and sessions (one
AudioContext, one MediaElementAudioSourceNode tap, one AnalyserNode) by the
natural number stamped when they are constructed. The cache is an association
list keyed by element identity; attach consults it first and constructs a new
session only on a miss, exactly as the hook body does with graph.get /
graph.set. -/

/-- Model of graph.get: find the session cached for an element identity. -/
def findSession (cache : List (ℕ × ℕ)) (audio : ℕ) : Option ℕ :=
  match cache with
  | [] => none
  | (k, s) :: rest => if k = audio then some s else findSession rest audio

/-- One attach: look the element up in the cache; on a hit, reuse the cached
session (returning created = false); on a miss, build a fresh session, insert
it, and return created = true. -/
def attach (cache : List (ℕ × ℕ)) (audio : ℕ) : List (ℕ × ℕ) × ℕ × Bool :=
  match findSession cache audio with
  | some s => (cache, s, false)
  | none => ((audio, cache.length) :: cache, cache.length, true)

/-- Run a sequence of attach calls starting from a given cache. -/
def attachRunFrom (cache : List (ℕ × ℕ)) (reqs : List ℕ) : List (ℕ × ℕ) :=
  reqs.foldl (fun c a => (attach c a).1) cache

/-- Run a sequence of attach calls starting from the empty cache. -/
def attachRun (reqs : List ℕ) : List (ℕ × ℕ) :=
  attachRunFrom [] reqs

/-- Number of sessions (tap nodes) present in the cache for one element. -/
def tapCount (cache : List (ℕ × ℕ)) (audio : ℕ) : ℕ :=
  (cache.filter (fun p => p.1 == audio)).length

/-! ## Viseme selector (the useFrame body in App.tsx) -/

/-- Selector state held in refs: mouthSmooth, visemeTimer, currentViseme.
The animation-action machinery of the same frame callback (currentAction,
switchTimer, the actions map) touches no field of this state and is outside
every claim, so it is not modelled. -/
structure SelState where
  mouthSmooth : ℚ
  visemeTimer : ℚ
  currentViseme : Option ℕ
deriving DecidableEq

/-- Initial selector state: useRef(0), useRef(0), useRef(null). -/
def initSelState : SelState := ⟨0, 0, none⟩

/-- Per-frame smoothing of the incoming amplitude:
mouthSmooth = lerp(mouthSmooth, clamp(mouth, 0, 1), 0.35). -/
def mouthSmoothUpdate (v raw : ℚ) : ℚ := lerp v (clamp raw 0 1) (35/100)

/-- Palette position used by both selection paths:
Math.floor(clamp(x, 0, 0.9999) * allShapeIndices.length). -/
def spectralPos (x : ℚ) (n : ℕ) : ℕ :=
  (⌊clamp x 0 (9999/10000) * (n : ℚ)⌋).toNat

/-- Model of the JS expression allShapeIndices[pos] || allShapeIndices[0]:
out-of-range access yields undefined and the number 0 is falsy, so both fall
back to the entry at index 0. -/
def pickShape (palette : List ℕ) (pos : ℕ) : ℕ :=
  if palette.getD pos 0 ≠ 0 then palette.getD pos 0 else palette.getD 0 0

/-- Cadence switching interval:
THREE.MathUtils.lerp(0.24, 0.06, THREE.MathUtils.clamp(v, 0, 1)). -/
def cadenceInterval (v : ℚ) : ℚ := lerp (24/100) (6/100) (clamp v 0 1)

/-- Cadence path of a talking frame: visemeTimer += delta; when the timer has
reached the interval, reset it and pick a new shape (or clear the selection
when the palette is empty); otherwise leave the selection unchanged. -/
def cadenceTick (v delta : ℚ) (palette : List ℕ) (timer : ℚ) (cur : Option ℕ) :
    ℚ × Option ℕ :=
  if cadenceInterval v ≤ timer + delta then
    (0, if 0 < palette.length then
          some (pickShape palette (spectralPos v palette.length))
        else none)
  else (timer + delta, cur)

/-- Body of one selector frame, abstracted over the freshly smoothed value v.
Talking means v > 0.02. While talking, a spectral value c with c > 0 and a
non-empty palette selects directly (the viseme prop is none when it is not a
number); otherwise the cadence path runs. While not talking, both the timer
and the selection are reset. -/
def frameStepAux (v : ℚ) (viseme : Option ℚ) (delta : ℚ) (palette : List ℕ)
    (s : SelState) : SelState :=
  if 2/100 < v then
    match viseme with
    | some c =>
        if 0 < c ∧ 0 < palette.length then
          { mouthSmooth := v, visemeTimer := s.visemeTimer,
            currentViseme := some (pickShape palette (spectralPos c palette.length)) }
        else
          { mouthSmooth := v,
            visemeTimer := (cadenceTick v delta palette s.visemeTimer s.currentViseme).1,
            currentViseme := (cadenceTick v delta palette s.visemeTimer s.currentViseme).2 }
    | none =>
        { mouthSmooth := v,
          visemeTimer := (cadenceTick v delta palette s.visemeTimer s.currentViseme).1,
          currentViseme := (cadenceTick v delta palette s.visemeTimer s.currentViseme).2 }
  else
    { mouthSmooth := v, visemeTimer := 0, currentViseme := none }

/-- One frame of the viseme selector: smooth the incoming raw amplitude first,
then branch on talking / spectral / cadence exactly as the useFrame body does. -/
def frameStep (mouth : ℚ) (viseme : Option ℚ) (delta : ℚ) (palette : List ℕ)
    (s : SelState) : SelState :=
  frameStepAux (mouthSmoothUpdate s.mouthSmooth mouth) viseme delta palette s

/-- One frame input to the selector. -/
structure FrameInput where
  mouth : ℚ
  viseme : Option ℚ
  delta : ℚ
  palette : List ℕ

/-- Fold the selector over a sequence of frames from the initial state. -/
def runFrames (inputs : List FrameInput) : SelState :=
  inputs.foldl (fun s i => frameStep i.mouth i.viseme i.delta i.palette s) initSelState

/-! ## Theorems -/

/-- Helper: clamping a nonnegative value to [0,1] is just min 1. -/
theorem clamp01_of_nonneg (x : ℚ) (h : 0 ≤ x) : clamp x 0 1 = min 1 x :=
  max_eq_right (le_min zero_le_one h)

/-- Claim C1: over the fixed 2048-sample window, the loudness published via
onMouth equals the mean of |(sample - 128)/128| multiplied by the gain 8 and
clamped to [0,1]; that value always lies in [0,1]; and the tick publishes it
first, un-smoothed (tick is a function of the current buffer alone, with no
state carried between frames), whatever the centroid outcome and callback
configuration. -/
theorem tick_loudness_spec (timeData : ℕ → ℕ) :
    tickAmp 2048 timeData =
      clamp (((∑ i in Finset.range 2048, |((timeData i : ℚ) - 128) / 128|) / 2048) * 8) 0 1 ∧
    0 ≤ tickAmp 2048 timeData ∧ tickAmp 2048 timeData ≤ 1 ∧
    ∀ (centroidResult : Except Unit ℚ) (hasViseme : Bool),
      (tick 2048 timeData centroidResult hasViseme).head? =
        some (EngineEvent.emitMouth (tickAmp 2048 timeData)) := by
  have hS : 0 ≤ ∑ i in Finset.range 2048, |((timeData i : ℚ) - 128) / 128| :=
    Finset.sum_nonneg fun i _ => abs_nonneg _
  have hx : 0 ≤ (∑ i in Finset.range 2048, |((timeData i : ℚ) - 128) / 128|) / 2048 * 8 :=
    mul_nonneg (div_nonneg hS (by norm_num)) (by norm_num)
  have hdef : tickAmp 2048 timeData =
      min 1 ((∑ i in Finset.range 2048, |((timeData i : ℚ) - 128) / 128|) / 2048 * 8) := by
    simp only [tickAmp]
    norm_num
  refine ⟨?_, ?_, ?_, fun cr hv => rfl⟩
  · rw [hdef, clamp01_of_nonneg _ hx]
  · rw [hdef]; exact le_min zero_le_one hx
  · rw [hdef]; exact min_le_left _ _

/-- Claim C2: the spectral centroid equals the energy-weighted mean bin index
divided by (bin count - 1) whenever the total rectified energy is nonzero, is
exactly 0 when that energy is zero, and always lies in [0,1] (stated for any
window of at least two bins; the analyser's window has 1024). -/
theorem spectral_centroid_spec (len : ℕ) (freqData : ℕ → ℚ) (hlen : 2 ≤ len) :
    (centroidDen len freqData = 0 → computeSpectralCentroid len freqData = 0) ∧
    (centroidDen len freqData ≠ 0 →
      computeSpectralCentroid len freqData =
        (centroidNum len freqData / centroidDen len freqData) / ((len : ℚ) - 1)) ∧
    0 ≤ computeSpectralCentroid len freqData ∧
    computeSpectralCentroid len freqData ≤ 1 := by
  have hden0 : 0 ≤ centroidDen len freqData :=
    Finset.sum_nonneg fun i _ => le_max_left 0 (freqData i)
  have hnum0 : 0 ≤ centroidNum len freqData :=
    Finset.sum_nonneg fun i _ => mul_nonneg (le_max_left 0 (freqData i)) (Nat.cast_nonneg i)
  have hlen1 : (1 : ℚ) ≤ (len : ℚ) - 1 := by
    have h2 : (2 : ℚ) ≤ (len : ℚ) := by exact_mod_cast hlen
    linarith
  have hmax : max 1 ((len : ℚ) - 1) = (len : ℚ) - 1 := max_eq_right hlen1
  have hbound : centroidNum len freqData ≤ centroidDen len freqData * ((len : ℚ) - 1) := by
    unfold centroidNum centroidDen
    calc ∑ i in Finset.range len, max 0 (freqData i) * (i : ℚ)
        ≤ ∑ i in Finset.range len, max 0 (freqData i) * ((len : ℚ) - 1) := by
          apply Finset.sum_le_sum
          intro i hi
          apply mul_le_mul_of_nonneg_left _ (le_max_left 0 (freqData i))
          have hi2 : (i : ℚ) + 1 ≤ (len : ℚ) := by
            exact_mod_cast Nat.succ_le_of_lt (Finset.mem_range.mp hi)
          linarith
      _ = (∑ i in Finset.range len, max 0 (freqData i)) * ((len : ℚ) - 1) := by
          rw [Finset.sum_mul]
  refine ⟨fun h => by simp [computeSpectralCentroid, h], fun hne => ?_, ?_, ?_⟩
  · simp only [computeSpectralCentroid, if_neg hne, hmax]
  · by_cases h : centroidDen len freqData = 0
    · simp [computeSpectralCentroid, h]
    · simp only [computeSpectralCentroid, if_neg h]
      exact div_nonneg (div_nonneg hnum0 hden0) (le_trans zero_le_one (le_max_left 1 _))
  · by_cases h : centroidDen len freqData = 0
    · simp [computeSpectralCentroid, h]
    · simp only [computeSpectralCentroid, if_neg h, hmax]
      have hden : 0 < centroidDen len freqData := lt_of_le_of_ne hden0 (Ne.symm h)
      have hl1 : (0 : ℚ) < (len : ℚ) - 1 := by linarith
      rw [div_le_one hl1, div_le_iff₀ hden]
      linarith [hbound]

/-- Witness for C2 at the concrete 4-bin buffer that is 2 at bin 1 and 0
elsewhere. -/
theorem spectral_centroid_spec_witness :
    (2 ≤ 4 ∧ 0 ≤ computeSpectralCentroid 4 (fun i => if i = 1 then 2 else 0) ∧
      computeSpectralCentroid 4 (fun i => if i = 1 then 2 else 0) ≤ 1) := by
  have h := spectral_centroid_spec 4 (fun i => if i = 1 then 2 else 0) (by norm_num)
  exact ⟨by norm_num, h.2.2.1, h.2.2.2⟩

/-- Claim C3: the pause / ended handler cancels the scheduled frame and then
synchronously emits onMouth 0 and, when an onViseme callback was supplied,
onViseme 0; no new frame is scheduled, so both zero emissions happen inside
the handler, before any further sampling could run. -/
theorem pause_emits_zero_and_cancels :
    onPause true =
      [EngineEvent.cancelFrame, EngineEvent.emitMouth 0, EngineEvent.emitViseme 0] ∧
    onPause false = [EngineEvent.cancelFrame, EngineEvent.emitMouth 0] ∧
    EngineEvent.scheduleFrame ∉ onPause true ∧
    EngineEvent.scheduleFrame ∉ onPause false := by
  refine ⟨rfl, rfl, ?_, ?_⟩ <;> simp [onPause]

/-- Claim C8: when the centroid computation throws, that tick still emits the
loudness first, skips only the viseme emission, and reschedules the loop; on a
successful tick the viseme is emitted between the two. -/
theorem centroid_failure_skips_viseme_only (len : ℕ) (timeData : ℕ → ℕ) :
    tick len timeData (Except.error ()) true =
      [EngineEvent.emitMouth (tickAmp len timeData), EngineEvent.scheduleFrame] ∧
    ∀ c : ℚ, tick len timeData (Except.ok c) true =
      [EngineEvent.emitMouth (tickAmp len timeData), EngineEvent.emitViseme c,
        EngineEvent.scheduleFrame] :=
  ⟨rfl, fun _ => rfl⟩

/-- Helper: counting taps through a cons cell. -/
theorem tapCount_cons (k s b : ℕ) (rest : List (ℕ × ℕ)) :
    tapCount ((k, s) :: rest) b = (if k = b then 1 else 0) + tapCount rest b := by
  by_cases h : k = b
  · subst h
    simp [tapCount, List.filter_cons]
    omega
  · simp [tapCount, List.filter_cons, h]

/-- Helper: graph.get misses exactly when no tap is cached for the element. -/
theorem findSession_eq_none_iff (cache : List (ℕ × ℕ)) (a : ℕ) :
    findSession cache a = none ↔ tapCount cache a = 0 := by
  induction cache with
  | nil => simp [findSession, tapCount]
  | cons p rest ih =>
    obtain ⟨k, s⟩ := p
    by_cases h : k = a
    · subst h
      simp [findSession, tapCount_cons]
    · simp [findSession, h, tapCount_cons, ih]

/-- Helper: effect of one attach on the tap count of any element. -/
theorem tapCount_attach (cache : List (ℕ × ℕ)) (a b : ℕ) :
    tapCount (attach cache a).1 b =
      if b = a ∧ tapCount cache a = 0 then tapCount cache b + 1 else tapCount cache b := by
  cases hfs : findSession cache a with
  | some s =>
    have hne : ¬ tapCount cache a = 0 := by
      intro h0
      rw [← findSession_eq_none_iff] at h0
      rw [h0] at hfs
      exact Option.noConfusion hfs
    simp only [attach, hfs]
    simp [hne]
  | none =>
    have ha : tapCount cache a = 0 := (findSession_eq_none_iff cache a).mp hfs
    simp only [attach, hfs]
    by_cases hb : b = a
    · subst hb
      simp [tapCount_cons, ha]
    · rw [tapCount_cons, if_neg (fun hh => hb hh.symm),
        if_neg (fun hh : b = a ∧ _ => hb hh.1)]
      omega

/-- Helper: attachRunFrom distributes over cons. -/
theorem attachRunFrom_cons (cache : List (ℕ × ℕ)) (a : ℕ) (rest : List ℕ) :
    attachRunFrom cache (a :: rest) = attachRunFrom (attach cache a).1 rest := rfl

/-- Helper: tap count after a run of attaches over any starting cache. -/
theorem tapCount_attachRunFrom (reqs : List ℕ) : ∀ (cache : List (ℕ × ℕ)) (b : ℕ),
    tapCount (attachRunFrom cache reqs) b =
      if b ∈ reqs ∧ tapCount cache b = 0 then 1 else tapCount cache b := by
  induction reqs with
  | nil =>
    intro cache b
    simp [attachRunFrom]
  | cons a rest ih =>
    intro cache b
    rw [attachRunFrom_cons, ih, tapCount_attach]
    by_cases hba : b = a <;> by_cases h0 : tapCount cache b = 0 <;>
      by_cases hmem : b ∈ rest <;> simp_all [List.mem_cons]

/-- Claim C4: starting from an empty cache, any sequence of attach calls
leaves exactly one cached session (tap node) per attached element and none for
the others; and an attach that finds a cached session returns it unchanged
without constructing a new analysis graph. -/
theorem session_cache_unique (reqs : List ℕ) (audio : ℕ) (cache : List (ℕ × ℕ)) (s : ℕ)
    (hs : findSession cache audio = some s) :
    tapCount (attachRun reqs) audio = (if audio ∈ reqs then 1 else 0) ∧
    attach cache audio = (cache, s, false) := by
  constructor
  · rw [attachRun, tapCount_attachRunFrom]
    have h0 : tapCount ([] : List (ℕ × ℕ)) audio = 0 := rfl
    simp [h0]
  · simp only [attach, hs]

/-- Witness for C4: a run attaching element 5 twice and element 7 once keeps a
single session for 5, and re-attaching 5 to a cache holding it reuses it. -/
theorem session_cache_unique_witness :
    findSession [(5, 0)] 5 = some 0 ∧
    tapCount (attachRun [5, 5, 7]) 5 = (if 5 ∈ [5, 5, 7] then 1 else 0) ∧
    attach [(5, 0)] 5 = ([(5, 0)], 0, false) := by
  have h := session_cache_unique [5, 5, 7] 5 [(5, 0)] 0 (by decide)
  exact ⟨by decide, h.1, h.2⟩

/-- Helper: the palette position is always inside the palette. -/
theorem spectralPos_lt (c : ℚ) (n : ℕ) (hn : 0 < n) : spectralPos c n < n := by
  have hle : clamp c 0 (9999/10000) ≤ 9999/10000 := max_le (by norm_num) (min_le_left _ _)
  have hnn : (0 : ℚ) ≤ clamp c 0 (9999/10000) := le_max_left _ _
  have hq : (0 : ℚ) < (n : ℚ) := by exact_mod_cast hn
  have hlt : clamp c 0 (9999/10000) * (n : ℚ) < (n : ℚ) := by nlinarith
  have hfl : ⌊clamp c 0 (9999/10000) * (n : ℚ)⌋ < (n : ℤ) := by
    rw [Int.floor_lt]
    push_cast
    exact hlt
  unfold spectralPos
  omega

/-- Helper: concrete evaluation of the smoothing update at full amplitude. -/
theorem eval_mouthSmoothUpdate_one : mouthSmoothUpdate (1 : ℚ) 1 = 1 := by
  unfold mouthSmoothUpdate lerp clamp
  norm_num [min_def, max_def]

/-- Helper: concrete evaluation of the smoothing update at silence. -/
theorem eval_mouthSmoothUpdate_zero : mouthSmoothUpdate (0 : ℚ) 0 = 0 := by
  unfold mouthSmoothUpdate lerp clamp
  norm_num [min_def, max_def]

/-- Helper: a fully smoothed amplitude of 1 counts as talking. -/
theorem talk_at_one : 2/100 < mouthSmoothUpdate (1 : ℚ) 1 := by
  rw [eval_mouthSmoothUpdate_one]
  norm_num

/-- Helper: concrete evaluation of the palette position at centroid 0.6 on a
two-entry palette. -/
theorem eval_spectralPos_six_tenths : spectralPos (6/10) 2 = 1 := by
  unfold spectralPos
  have h1 : clamp (6/10 : ℚ) 0 (9999/10000) = 6/10 := by
    unfold clamp
    rw [min_eq_right (by norm_num), max_eq_right (by norm_num)]
  rw [h1]
  have h2 : ⌊(6/10 : ℚ) * ((2 : ℕ) : ℚ)⌋ = 1 := by
    rw [show (6/10 : ℚ) * ((2 : ℕ) : ℚ) = 6/5 by norm_num]
    rw [Int.floor_eq_iff]
    norm_num
  rw [h2]
  rfl

/-- Helper: concrete evaluation of the palette position at centroid 0.5 on a
two-entry palette. -/
theorem eval_spectralPos_half : spectralPos (1/2) 2 = 1 := by
  unfold spectralPos
  have h1 : clamp (1/2 : ℚ) 0 (9999/10000) = 1/2 := by
    unfold clamp
    rw [min_eq_right (by norm_num), max_eq_right (by norm_num)]
  rw [h1]
  have h2 : ⌊(1/2 : ℚ) * ((2 : ℕ) : ℚ)⌋ = 1 := by
    rw [show (1/2 : ℚ) * ((2 : ℕ) : ℚ) = 1 by norm_num]
    rw [Int.floor_eq_iff]
    norm_num
  rw [h2]
  rfl

/-- Claim C5 counterexample: with palette [1, 0] and centroid 0.6 on a talking
frame, the computed position is 1 and the palette entry there is 0, yet the
selection is 1 — the JS expression allShapeIndices[pos] || allShapeIndices[0]
treats the entry 0 as falsy and falls back to the entry at index 0. -/
theorem spectral_direct_map_counterexample :
    spectralPos (6/10) 2 = 1 ∧
    List.getD [1, 0] 1 0 = 0 ∧
    2/100 < mouthSmoothUpdate (1 : ℚ) 1 ∧
    (frameStep 1 (some (6/10)) (1/100) [1, 0] ⟨1, 0, none⟩).currentViseme = some 1 := by
  have hc6 : (0 : ℚ) < 6/10 := by norm_num
  refine ⟨eval_spectralPos_six_tenths, rfl, talk_at_one, ?_⟩
  simp [frameStep, frameStepAux, talk_at_one, hc6, eval_spectralPos_six_tenths, pickShape]

/-- Claim C5 amended: on a talking frame with a positive spectral value and a
non-empty palette, the position is floor(clamp(centroid, 0, 0.9999) ×
paletteSize), always inside [0, paletteSize); the selection is the palette
entry at that position when that entry is nonzero, and otherwise falls back to
the palette entry at index 0. -/
theorem spectral_direct_map_amended (mouth c delta : ℚ) (palette : List ℕ) (s : SelState)
    (htalk : 2/100 < mouthSmoothUpdate s.mouthSmooth mouth)
    (hc : 0 < c) (hp : 0 < palette.length) :
    spectralPos c palette.length < palette.length ∧
    (frameStep mouth (some c) delta palette s).currentViseme =
      some (pickShape palette (spectralPos c palette.length)) ∧
    (List.getD palette (spectralPos c palette.length) 0 ≠ 0 →
      pickShape palette (spectralPos c palette.length) =
        List.getD palette (spectralPos c palette.length) 0) ∧
    (List.getD palette (spectralPos c palette.length) 0 = 0 →
      pickShape palette (spectralPos c palette.length) = List.getD palette 0 0) := by
  refine ⟨spectralPos_lt c palette.length hp, ?_, ?_, ?_⟩
  · simp [frameStep, frameStepAux, htalk, hc, hp]
  · intro hnz
    unfold pickShape
    rw [if_pos hnz]
  · intro hz
    unfold pickShape
    rw [if_neg (not_not_intro hz)]

/-- Witness for the amended C5 at palette [3, 4] and centroid 0.5 on a talking
frame: position 1, entry 4 selected. -/
theorem spectral_direct_map_amended_witness :
    2/100 < mouthSmoothUpdate (1 : ℚ) 1 ∧ (0 : ℚ) < 1/2 ∧ 0 < List.length [3, 4] ∧
    spectralPos (1/2) (List.length [3, 4]) < List.length [3, 4] ∧
    (frameStep 1 (some (1/2)) (1/100) [3, 4] ⟨1, 0, none⟩).currentViseme =
      some (pickShape [3, 4] (spectralPos (1/2) (List.length [3, 4]))) := by
  have h := spectral_direct_map_amended 1 (1/2) (1/100) [3, 4] ⟨1, 0, none⟩
    talk_at_one (by norm_num) (by norm_num)
  exact ⟨talk_at_one, by norm_num, by norm_num, h.1, h.2.1⟩

/-- Claim C6: the cadence switching interval is the linear interpolation from
0.24 s at v = 0 down to 0.06 s at v = 1 of clamp(v, 0, 1), it is antitone in
the amplitude, and at v = 0.5 it equals 0.15 s. -/
theorem cadence_interval_monotone (v1 v2 : ℚ) (h1 : 2/100 < v1) (h2 : 2/100 < v2)
    (hlt : v1 < v2) :
    cadenceInterval v2 ≤ cadenceInterval v1 ∧
    cadenceInterval v1 = lerp (24/100) (6/100) (clamp v1 0 1) ∧
    cadenceInterval (1/2) = 15/100 := by
  refine ⟨?_, rfl, ?_⟩
  · have hc : clamp v1 0 1 ≤ clamp v2 0 1 :=
      max_le_max (le_refl 0) (min_le_min (le_refl 1) hlt.le)
    unfold cadenceInterval lerp
    linarith
  · unfold cadenceInterval lerp clamp
    norm_num [min_def, max_def]

/-- Witness for C6 at v1 = 0.1 and v2 = 0.2. -/
theorem cadence_interval_monotone_witness :
    2/100 < (1/10 : ℚ) ∧ 2/100 < (2/10 : ℚ) ∧ (1/10 : ℚ) < 2/10 ∧
    cadenceInterval (2/10) ≤ cadenceInterval (1/10) := by
  have h := cadence_interval_monotone (1/10) (2/10) (by norm_num) (by norm_num) (by norm_num)
  exact ⟨by norm_num, by norm_num, by norm_num, h.1⟩

/-- Claim C7: on any frame where the freshly smoothed amplitude is at most
0.02, the cadence timer is reset to 0 and the viseme selection is cleared to
none on that same frame. -/
theorem not_talking_clears (mouth delta : ℚ) (viseme : Option ℚ) (palette : List ℕ)
    (s : SelState) (h : mouthSmoothUpdate s.mouthSmooth mouth ≤ 2/100) :
    (frameStep mouth viseme delta palette s).visemeTimer = 0 ∧
    (frameStep mouth viseme delta palette s).currentViseme = none := by
  unfold frameStep frameStepAux
  rw [if_neg (not_lt.mpr h)]
  exact ⟨rfl, rfl⟩

/-- Witness for C7: a state with a running timer and an active viseme is
cleared on a silent frame. -/
theorem not_talking_clears_witness :
    mouthSmoothUpdate (0 : ℚ) 0 ≤ 2/100 ∧
    (frameStep 0 (some (1/2)) (1/100) [1, 2] ⟨0, 5, some 3⟩).visemeTimer = 0 ∧
    (frameStep 0 (some (1/2)) (1/100) [1, 2] ⟨0, 5, some 3⟩).currentViseme = none := by
  have hq : mouthSmoothUpdate (0 : ℚ) 0 ≤ 2/100 := by
    rw [eval_mouthSmoothUpdate_zero]
    norm_num
  have h := not_talking_clears 0 (1/100) (some (1/2)) [1, 2] ⟨0, 5, some 3⟩ hq
  exact ⟨hq, h.1, h.2⟩

/-- Claim C9: on a talking frame with no positive spectral value and the
cadence timer still short of the interval, the previous viseme selection is
left unchanged and the timer merely accumulates the frame delta. -/
theorem no_centroid_keeps_selection (mouth delta : ℚ) (viseme : Option ℚ)
    (palette : List ℕ) (s : SelState)
    (htalk : 2/100 < mouthSmoothUpdate s.mouthSmooth mouth)
    (hns : ∀ c, viseme = some c → c ≤ 0)
    (hint : s.visemeTimer + delta <
      cadenceInterval (mouthSmoothUpdate s.mouthSmooth mouth)) :
    (frameStep mouth viseme delta palette s).currentViseme = s.currentViseme ∧
    (frameStep mouth viseme delta palette s).visemeTimer = s.visemeTimer + delta := by
  have hcad : cadenceTick (mouthSmoothUpdate s.mouthSmooth mouth) delta palette
      s.visemeTimer s.currentViseme = (s.visemeTimer + delta, s.currentViseme) := by
    unfold cadenceTick
    rw [if_neg (not_le.mpr hint)]
  cases viseme with
  | none =>
    simp [frameStep, frameStepAux, htalk, hcad]
  | some c =>
    have hc : ¬ (0 < c ∧ 0 < palette.length) := fun hh =>
      absurd hh.1 (not_lt.mpr (hns c rfl))
    simp [frameStep, frameStepAux, htalk, hc, hcad]

/-- Witness for C9: a loud frame with no spectral signal and a timer far from
the 0.06 s interval keeps the previous selection. -/
theorem no_centroid_keeps_selection_witness :
    2/100 < mouthSmoothUpdate (1 : ℚ) 1 ∧
    (0 : ℚ) + 1/100 < cadenceInterval (mouthSmoothUpdate (1 : ℚ) 1) ∧
    (frameStep 1 none (1/100) [1, 2] ⟨1, 0, some 7⟩).currentViseme = some 7 ∧
    (frameStep 1 none (1/100) [1, 2] ⟨1, 0, some 7⟩).visemeTimer = 0 + 1/100 := by
  have hint : (0 : ℚ) + 1/100 < cadenceInterval (mouthSmoothUpdate (1 : ℚ) 1) := by
    rw [eval_mouthSmoothUpdate_one]
    unfold cadenceInterval lerp clamp
    norm_num [min_def, max_def]
  have h := no_centroid_keeps_selection 1 (1/100) none [1, 2] ⟨1, 0, some 7⟩
    talk_at_one (fun c hc => nomatch hc) hint
  exact ⟨talk_at_one, hint, h.1, h.2⟩

/-- Helper: clamp to [0,1] stays in [0,1]. -/
theorem clamp01_bounds (x : ℚ) : 0 ≤ clamp x 0 1 ∧ clamp x 0 1 ≤ 1 :=
  ⟨le_max_left 0 _, max_le zero_le_one (min_le_left 1 x)⟩

/-- Helper: the smoothing update keeps the smoothed value in [0,1]. -/
theorem mouthSmoothUpdate_bounds (v raw : ℚ) (h0 : 0 ≤ v) (h1 : v ≤ 1) :
    0 ≤ mouthSmoothUpdate v raw ∧ mouthSmoothUpdate v raw ≤ 1 := by
  obtain ⟨hc0, hc1⟩ := clamp01_bounds raw
  unfold mouthSmoothUpdate lerp
  constructor <;> linarith

/-- Helper: every branch of a selector frame stores the freshly smoothed
amplitude. -/
theorem frameStep_mouthSmooth (mouth : ℚ) (viseme : Option ℚ) (delta : ℚ)
    (palette : List ℕ) (s : SelState) :
    (frameStep mouth viseme delta palette s).mouthSmooth =
      mouthSmoothUpdate s.mouthSmooth mouth := by
  by_cases h : 2/100 < mouthSmoothUpdate s.mouthSmooth mouth
  · cases viseme with
    | none => simp [frameStep, frameStepAux, h]
    | some c =>
      by_cases hc : 0 < c ∧ 0 < palette.length
      · simp [frameStep, frameStepAux, h, hc]
      · simp [frameStep, frameStepAux, h, hc]
  · simp [frameStep, frameStepAux, h]

/-- Helper: folding the selector preserves the [0,1] bound on the smoothed
amplitude. -/
theorem foldl_frameStep_bounds (inputs : List FrameInput) :
    ∀ s : SelState, 0 ≤ s.mouthSmooth → s.mouthSmooth ≤ 1 →
      0 ≤ (inputs.foldl (fun s i => frameStep i.mouth i.viseme i.delta i.palette s)
            s).mouthSmooth ∧
      (inputs.foldl (fun s i => frameStep i.mouth i.viseme i.delta i.palette s)
          s).mouthSmooth ≤ 1 := by
  induction inputs with
  | nil =>
    intro s h0 h1
    exact ⟨h0, h1⟩
  | cons i rest ih =>
    intro s h0 h1
    simp only [List.foldl_cons]
    apply ih
    · rw [frameStep_mouthSmooth]
      exact (mouthSmoothUpdate_bounds _ _ h0 h1).1
    · rw [frameStep_mouthSmooth]
      exact (mouthSmoothUpdate_bounds _ _ h0 h1).2

/-- Claim C10: the smoothed amplitude starts at 0, each frame moves it by
0.35 times the gap to the clamped raw input, and it stays in [0,1] after every
update, for any finite sequence of frame inputs with raw values of any sign
and size. -/
theorem smoothed_amplitude_bounded (inputs : List FrameInput) :
    (∀ v raw : ℚ, mouthSmoothUpdate v raw = v + 35/100 * (clamp raw 0 1 - v)) ∧
    0 ≤ (runFrames inputs).mouthSmooth ∧ (runFrames inputs).mouthSmooth ≤ 1 := by
  refine ⟨fun v raw => by unfold mouthSmoothUpdate lerp; ring, ?_, ?_⟩
  · exact (foldl_frameStep_bounds inputs initSelState (le_refl 0) zero_le_one).1
  · exact (foldl_frameStep_bounds inputs initSelState (le_refl 0) zero_le_one).2

end AvatarSync
